import Mathlib

/-!
The notification engine of chickenlittle and its Twilio transport

A shallow embedding of `notification.go` (the dispatcher loop of
`StartNotificationEngine` and the per-plan goroutine `planHandler`) and of the
parts of `twilio.go` that touch the shared `NIP` registries (`SendSMS`,
`MakePhoneCall`, `ReceiveSMSReply`).

Conventions of the embedding:

* a Go `map[string]T` is a function `String → Option T` (`none`: key absent);
* a channel is named by a number; `make(chan bool)` takes the next unused one;
* a goroutine blocked in `select` is a state, and the arrival of a value on one
  of the channels it selects on is an event; an event on a channel that cannot
  deliver (a nil channel, a timer whose single value was already received)
  leaves the state as it is;
* library calls whose result the code cannot control (`rand.Intn`, the HTTP
  round trip, `json.Unmarshal`) are inputs of the embedded function;
* `log.Println` lines are recorded as effects, next to the transport calls.
-/

namespace ChickenLittle

/-! ## Go maps -/

/-- A Go map with string keys. -/
abbrev GoMap (β : Type) := String → Option β

/-- The map `make(map[string]T)` returns. -/
def GoMap.empty {β : Type} : GoMap β := fun _ => none

/-- Go `m[k] = v`. -/
def GoMap.set {β : Type} (m : GoMap β) (k : String) (v : β) : GoMap β :=
  fun i => if i = k then some v else m i

/-- Go `delete(m, k)`. -/
def GoMap.delete {β : Type} (m : GoMap β) (k : String) : GoMap β :=
  fun i => if i = k then none else m i

/-- Go `_, prs := m[k]`. -/
def GoMap.present {β : Type} (m : GoMap β) (k : String) : Bool := (m k).isSome

/-! ## Plans -/

/-- A `time.Duration`: a signed number of nanoseconds. -/
abbrev Duration := Int

/-- A channel, named by the order of its creation. -/
abbrev Chan := Nat

/-- Modelled from the spec: the step type of a plan is declared outside the two
source files; these are the fields `planHandler` reads from it
(`s.Method`, `s.NotifyEveryPeriod`, `s.NotifyUntilPeriod`). -/
structure Step where
  Method : String
  NotifyEveryPeriod : Duration
  NotifyUntilPeriod : Duration
deriving DecidableEq, Repr

/-- Modelled from the spec: `NotificationPlan` is declared outside the two
source files; `planHandler` reads `np.ID.String()` and `np.Steps`. -/
structure NotificationPlan where
  ID : String
  Steps : List Step
deriving DecidableEq, Repr

/-! ## Effects -/

/-- The lines `planHandler` writes with `log.Println`. -/
inductive LogLine where
  | planHandler
  | step (n : Nat)
  | method (m : String)
  | waiting (d : Duration)
  | timerExpired
  | tick
  | tickWaiting (d : Duration)
  | manualStop
  | loopBroken
deriving DecidableEq, Repr

/-- What a goroutine does to the outside: a log line, or a call of one of the
two transport functions of `twilio.go`. -/
inductive Effect where
  | log (l : LogLine)
  | sendSMS (phoneNumber message uuid : String) (dontSendAckRequest : Bool)
  | makePhoneCall (phoneNumber message uuid : String)
deriving DecidableEq, Repr

/-- Whether an effect is a contact dispatch (a transport call). -/
def Effect.isDispatch : Effect → Bool
  | .log _ => false
  | .sendSMS _ _ _ _ => true
  | .makePhoneCall _ _ _ => true

/-- The contact dispatches among a goroutine's effects. -/
def dispatches (out : List Effect) : List Effect := out.filter Effect.isDispatch

/-- The steps a goroutine entered, in order, read off its `STEP n` lines. -/
def entered (out : List Effect) : List Nat :=
  out.filterMap fun e => match e with
    | .log (.step n) => some n
    | _ => none

/-- The number of `**Tick**  Retry contact method!` lines. -/
def retries (out : List Effect) : Nat := out.count (.log .tick)

/-! ## planHandler -/

/-- The variable `timerChan` of `planHandler`: nil until a timer is made;
`armed` while the timer's single value has not been received; `drained` once
it has (the variable still holds the old channel, which never delivers
again). -/
inductive TimerChan where
  | nil
  | armed
  | drained
deriving DecidableEq, Repr

/-- Where the goroutine is: blocked in the `select` of step `n` (with the loop
variable `s`), returned through the `case <-sc` branch, returned because the
`range` loop ran out of steps, or dead in the panic of `time.NewTicker`, which
takes the process with it. -/
inductive PC where
  | select (n : Nat) (s : Step)
  | stopped
  | finished
  | panicked
deriving DecidableEq, Repr

/-- The local state of one `planHandler` goroutine. `tickerChan` is `false`
while the variable is nil. -/
structure Handler where
  pc : PC
  timerChan : TimerChan
  tickerChan : Bool
  out : List Effect
deriving DecidableEq, Repr

/-- The events a `planHandler` goroutine selects on. -/
inductive Event where
  | timer
  | ticker
  | stop
deriving DecidableEq, Repr

/-- The body of the `range` loop up to the `select` (lines 76-88): the two log
lines, then a ticker for the last step and a timer for any other.
`time.NewTicker` panics when its period is not positive, before the third log
line; `time.NewTimer` takes any duration. -/
def enterStep (np : NotificationPlan) (h : Handler) (n : Nat) (s : Step) : Handler :=
  let out := h.out ++ [.log (.step n), .log (.method s.Method)]
  if (n : Int) = (np.Steps.length : Int) - 1 then
    if 0 < s.NotifyEveryPeriod then
      { pc := .select n s, timerChan := h.timerChan, tickerChan := true,
        out := out ++ [.log (.waiting s.NotifyEveryPeriod)] }
    else
      { pc := .panicked, timerChan := h.timerChan, tickerChan := h.tickerChan, out := out }
  else
    { pc := .select n s, timerChan := .armed, tickerChan := h.tickerChan,
      out := out ++ [.log (.waiting s.NotifyUntilPeriod)] }

/-- The head of the `range` loop at index `n`: the body when there is a step
`n`, the end of the function when there is none. -/
def iterate (np : NotificationPlan) (h : Handler) (n : Nat) : Handler :=
  match np.Steps[n]? with
  | some s => enterStep np h n s
  | none => { h with pc := .finished }

/-- The start of `planHandler`, run up to its first `select`, or to its end
when it does not get there. -/
def planHandler (np : NotificationPlan) : Handler :=
  iterate np { pc := .finished, timerChan := .nil, tickerChan := false,
               out := [.log .planHandler] } 0

/-- One pass through the `select` of `timerLoop` on event `e`, with the shared
`NIP.Stoppers`. A goroutine that has returned reacts to nothing. -/
def select (np : NotificationPlan) (h : Handler) (reg : GoMap Chan) (e : Event) :
    Handler × GoMap Chan :=
  match h.pc with
  | .select n s =>
    match e with
    | .timer =>
      if h.timerChan = .armed then
        (iterate np { h with timerChan := .drained,
                             out := h.out ++ [.log .timerExpired, .log .loopBroken] } (n + 1),
         reg)
      else (h, reg)
    | .ticker =>
      if h.tickerChan then
        ({ h with out := h.out ++ [.log .tick, .log (.tickWaiting s.NotifyEveryPeriod)] }, reg)
      else (h, reg)
    | .stop =>
      ({ h with pc := .stopped, out := h.out ++ [.log .manualStop] }, reg.delete np.ID)
  | .stopped => (h, reg)
  | .finished => (h, reg)
  | .panicked => (h, reg)

/-- The goroutine's reaction to a sequence of events. -/
def run (np : NotificationPlan) (h : Handler) (reg : GoMap Chan) (evs : List Event) :
    Handler × GoMap Chan :=
  evs.foldl (fun p e => select np p.1 p.2 e) (h, reg)

/-- A first step: a text message, escalated after two seconds. -/
def stepA : Step := { Method := "sms", NotifyEveryPeriod := 0, NotifyUntilPeriod := 2000000000 }

/-- A last step: a call, repeated every second. -/
def stepB : Step := { Method := "call", NotifyEveryPeriod := 1000000000, NotifyUntilPeriod := 0 }

/-- A two-step plan: a text message escalating to a call. -/
def planAB : NotificationPlan := { ID := "p1", Steps := [stepA, stepB] }

/-- The index of the step a goroutine is waiting in, if it is waiting. -/
def Handler.step? (h : Handler) : Option Nat :=
  match h.pc with
  | .select n _ => some n
  | .stopped => none
  | .finished => none
  | .panicked => none

/-- Whether the period `planHandler` hands to `time.NewTicker`, that of the
plan's last step, is positive. -/
def NotificationPlan.tickerOK (np : NotificationPlan) : Bool :=
  match np.Steps.getLast? with
  | some s => decide (0 < s.NotifyEveryPeriod)
  | none => true

/-- A one-step plan whose only step has no repeat interval. -/
def planA : NotificationPlan := { ID := "p1", Steps := [stepA] }

/-- A two-step plan whose last step has no repeat interval. -/
def planBA : NotificationPlan := { ID := "p1", Steps := [stepB, stepA] }

/-! ## The dispatcher loop of StartNotificationEngine -/

/-- A running or returned `planHandler` goroutine: its plan, the stopper
channel `sc` it was started with, and its local state. -/
structure Goroutine where
  np : NotificationPlan
  sc : Chan
  h : Handler
deriving DecidableEq, Repr

/-- The engine: the shared `NIP.Stoppers`, the goroutines started so far, the
next unused channel, the channels the dispatcher has sent `true` on, whether
the dispatcher is stuck in a send (line 57) that nobody receives, and whether
a goroutine's panic has ended the process. -/
structure Engine where
  Stoppers : GoMap Chan
  goroutines : List Goroutine
  nextChan : Chan
  sent : List Chan
  blocked : Bool
  crashed : Bool

/-- What the engine reacts to: a plan on `planChan`, an identifier on
`stopChan`, and the timer or ticker of the goroutine started with channel
`sc`. -/
inductive EngineEvent where
  | plan (np : NotificationPlan)
  | stopUUID (id : String)
  | timer (sc : Chan)
  | ticker (sc : Chan)
deriving DecidableEq, Repr

/-- The engine at the first `select` of `StartNotificationEngine`. -/
def StartNotificationEngine : Engine :=
  { Stoppers := GoMap.empty, goroutines := [], nextChan := 0, sent := [], blocked := false,
    crashed := false }

/-- Whether the goroutine is blocked in its `select`, ready to receive. -/
def Goroutine.listening (g : Goroutine) : Bool := g.h.step?.isSome

/-- Whether one of the goroutines has panicked. -/
def anyPanicked (gs : List Goroutine) : Bool := gs.any fun g => decide (g.h.pc = .panicked)

/-- Delivers event `ev` to the first goroutine that selects on channel `c` and
is listening; the result is `none` when there is no such goroutine. The
goroutine's pass through `select` works on the shared registry. -/
def deliver (c : Chan) (ev : Event) :
    List Goroutine → GoMap Chan → Option (List Goroutine × GoMap Chan)
  | [], _ => none
  | g :: gs, reg =>
    if g.sc = c ∧ g.listening = true then
      some ({ g with h := (select g.np g.h reg ev).1 } :: gs, (select g.np g.h reg ev).2)
    else
      match deliver c ev gs reg with
      | some (gs1, reg1) => some (g :: gs1, reg1)
      | none => none

/-- The `case np := <-planChan` branch (lines 31-47): a fresh stopper channel
is stored under the plan's identifier and a goroutine is started on it; the
process ends when that goroutine panics on its way to its first `select`. -/
def Engine.newPlan (e : Engine) (np : NotificationPlan) : Engine :=
  { e with Stoppers := e.Stoppers.set np.ID e.nextChan,
           goroutines := e.goroutines ++ [{ np := np, sc := e.nextChan, h := planHandler np }],
           nextChan := e.nextChan + 1,
           crashed := decide ((planHandler np).pc = .panicked) }

/-- The `case stopUUID := <-stopChan` branch (lines 48-59). When the
identifier is present, `true` is sent on its channel: the listening goroutine
receives it and runs its `case <-sc` branch; with no goroutine left to
receive, the send never completes. -/
def Engine.stop (e : Engine) (stopUUID : String) : Engine :=
  match e.Stoppers stopUUID with
  | some c =>
    match deliver c .stop e.goroutines e.Stoppers with
    | some (gs, reg) => { e with Stoppers := reg, goroutines := gs, sent := e.sent ++ [c] }
    | none => { e with blocked := true }
  | none => e

/-- One step of the live engine. A stuck dispatcher serves neither channel
again; timers and tickers reach their goroutines all the same, and a timer's
expiry ends the process when the goroutine panics on entering its next step. -/
def Engine.serve (e : Engine) : EngineEvent → Engine
  | .plan np => if e.blocked then e else e.newPlan np
  | .stopUUID id => if e.blocked then e else e.stop id
  | .timer c =>
    match deliver c .timer e.goroutines e.Stoppers with
    | some (gs, reg) => { e with Stoppers := reg, goroutines := gs, crashed := anyPanicked gs }
    | none => e
  | .ticker c =>
    match deliver c .ticker e.goroutines e.Stoppers with
    | some (gs, reg) => { e with Stoppers := reg, goroutines := gs }
    | none => e

/-- One step of the engine: nothing happens in a process that has ended. -/
def Engine.step (e : Engine) (ev : EngineEvent) : Engine :=
  if e.crashed then e else e.serve ev

/-- The engine after a sequence of events. -/
def Engine.run (evs : List EngineEvent) : Engine :=
  evs.foldl Engine.step StartNotificationEngine

/-- The plans submitted on `planChan` in a sequence of engine events. -/
def submitted (evs : List EngineEvent) : List NotificationPlan :=
  evs.filterMap fun ev => match ev with
    | .plan np => some np
    | _ => none

/-! ## twilio.go -/

/-- Modelled from the spec: the configuration `c.Config` is declared outside
the two source files; these are the values the transport reads from it. -/
structure Config where
  CallFromNumber : String
  CallbackURLBase : String
  APIBaseURL : String
  AccountSID : String
  AuthToken : String
deriving DecidableEq, Repr

/-- The JSON object Twilio answers a message request with. -/
structure SMSResponse where
  Sid : String
  DateCreated : String
  DateUpdated : String
  DateSent : String
  AccountSid : String
  To : String
  From : String
  Body : String
  NumSegments : String
  Status : String
  Direction : String
  Price : String
  PriceUnit : String
  ApiVersion : String
  Uri : String
deriving DecidableEq, Repr

/-- The outcome of `client.Do` followed by reading and unmarshalling the body:
`failed` when `client.Do` returns an error (and a nil response); otherwise the
result of `json.Unmarshal` into the expected type, `none` when it reports an
error. -/
inductive HTTPResult (α : Type) where
  | failed
  | body (parsed : Option α)

/-- How a call ends: it returns to its caller, `log.Fatalln` ends the process
with `os.Exit(1)`, or a nil dereference panics. -/
inductive Exit where
  | returned
  | fatal
  | panicked
deriving DecidableEq, Repr

/-- The lines the transport functions log. -/
inductive TwilioLog where
  | sending (uuid phoneNumber message : String)
  | requestError
  | fatalUnmarshal
deriving DecidableEq, Repr

/-- The form `SendSMS` posts to `/Messages.json`. -/
structure SMSRequest where
  url : String
  From : String
  To : String
  Body : String
  StatusCallback : Option String
deriving DecidableEq, Repr

/-- The form `MakePhoneCall` posts to `/Calls.json`. -/
structure CallRequest where
  url : String
  From : String
  To : String
  Url : String
  IfMachine : String
  Timeout : String
deriving DecidableEq, Repr

/-- What a call of `SendSMS` leaves behind. -/
structure SMSResult where
  Conversations : GoMap String
  request : SMSRequest
  logs : List TwilioLog
  exit : Exit

/-- What a call of `MakePhoneCall` leaves behind. -/
structure CallResult where
  request : CallRequest
  logs : List TwilioLog
  exit : Exit
deriving DecidableEq, Repr

/-- The acknowledgment code `rand.Intn(899) + 100`, from the value `k` that
`rand.Intn(899)` returned. -/
def ackReply (k : Nat) : Nat := k + 100

/-- The values `rand.Intn(899)` can return. -/
def intnRange : List Nat := List.range 899

/-- The `Body` of the outgoing message (lines 62-67). -/
def smsBody (message : String) (ack : Nat) (dontSendAckRequest : Bool) : String :=
  if dontSendAckRequest then message
  else message ++ " - Reply with \"" ++ toString ack ++ "\" to acknowledge"

/-- The conversation key `fmt.Sprint(recipient, "::", code)`, on the text of
the code: the decimal digits of `ackReply` in `SendSMS`, the `Body` of the
reply in `ReceiveSMSReply`. -/
def conversationKey (recipient code : String) : String := recipient ++ "::" ++ code

/-- The function `SendSMS`, on the conversations map, with the value `k` of
`rand.Intn(899)` and the outcome `http` of the request as inputs. -/
def SendSMS (c : Config) (conv : GoMap String) (phoneNumber message uuid : String)
    (dontSendAckRequest : Bool) (k : Nat) (http : HTTPResult SMSResponse) : SMSResult :=
  let ack := ackReply k
  let req : SMSRequest :=
    { url := c.APIBaseURL ++ c.AccountSID ++ "/Messages.json",
      From := c.CallFromNumber,
      To := phoneNumber,
      Body := smsBody message ack dontSendAckRequest,
      StatusCallback :=
        if uuid ≠ "" then some (c.CallbackURLBase ++ "/" ++ uuid ++ "/callback") else none }
  match http with
  | .failed =>
    { Conversations := conv, request := req,
      logs := [.sending uuid phoneNumber message, .requestError], exit := .panicked }
  | .body none =>
    { Conversations := conv, request := req,
      logs := [.sending uuid phoneNumber message, .fatalUnmarshal], exit := .fatal }
  | .body (some cr) =>
    if uuid ≠ "" then
      { Conversations := conv.set (conversationKey cr.To (toString ack)) uuid, request := req,
        logs := [.sending uuid phoneNumber message], exit := .returned }
    else
      { Conversations := conv, request := req,
        logs := [.sending uuid phoneNumber message], exit := .returned }

/-- The function `MakePhoneCall`, with the outcome `http` of the request as
input; the decoded object is not used. -/
def MakePhoneCall (c : Config) (phoneNumber message uuid : String) (http : HTTPResult Unit) :
    CallResult :=
  let req : CallRequest :=
    { url := c.APIBaseURL ++ c.AccountSID ++ "/Calls.json",
      From := c.CallFromNumber,
      To := phoneNumber,
      Url := c.CallbackURLBase ++ "/" ++ uuid ++ "/twiml/notify",
      IfMachine := "Hangup",
      Timeout := "20" }
  match http with
  | .failed =>
    { request := req, logs := [.sending uuid phoneNumber message, .requestError],
      exit := .panicked }
  | .body none =>
    { request := req, logs := [.sending uuid phoneNumber message, .fatalUnmarshal],
      exit := .fatal }
  | .body (some _) =>
    { request := req, logs := [.sending uuid phoneNumber message], exit := .returned }

/-- Modelled from the spec: the two registries of `NIP` the handlers of
`twilio.go` work on. The struct in `notification.go` declares `Stoppers` and
`Mu`; `NIP.Conversations`, which `twilio.go` reads and writes, is taken as an
initialised `map[string]string` from conversation key to plan identifier. -/
structure NIPState where
  Stoppers : GoMap Chan
  Conversations : GoMap String

/-- The branch `ReceiveSMSReply` took: no `From` value (line 163), the
conversation found and its plan in progress (lines 187-198), the conversation
found and its plan not in progress (lines 180-185), no conversation under the
key (line 201). -/
inductive Branch where
  | noFrom
  | acknowledged (uuid : String)
  | inactive (uuid : String)
  | unrecognized
deriving DecidableEq, Repr

/-- What a call of `ReceiveSMSReply` leaves behind: the registries, the branch
taken, the HTTP status answered, the identifiers sent on `stopChan`, the
message sent to the recipient, whether `NIP.Mu`, locked at line 168, is still
locked, and how the call ended. -/
structure ReplyResult where
  nip : NIPState
  branch : Branch
  status : Nat
  stops : List String
  sms : Option SMSRequest
  holdsMu : Bool
  exit : Exit

/-- The text of the confirmation sent after an acknowledgment. -/
def ackMessage : String := "Chicken Little has received your acknowledgment.  Thanks!"

/-- The text sent in answer to a reply that matches no conversation. -/
def unrecognizedMessage : String :=
  "I'm sorry but I don't recognize that response.   Please acknowledge with the three-digit code from the notfication you received."

/-- The function `ReceiveSMSReply`, on the form values `From` and `Body` of the
request, with the inputs `k` and `http` of the `SendSMS` call it makes. The
call is followed from a state in which it obtains `NIP.Mu`, and its send on
`stopChan` is received by the dispatcher. -/
def ReceiveSMSReply (c : Config) (nip : NIPState) (From Body : String) (k : Nat)
    (http : HTTPResult SMSResponse) : ReplyResult :=
  let recipient := From
  if recipient = "" then
    { nip := nip, branch := .noFrom, status := 200, stops := [], sms := none, holdsMu := false,
      exit := .returned }
  else
    let key := conversationKey recipient Body
    match nip.Conversations key with
    | some uuid =>
      if nip.Stoppers.present uuid = false then
        { nip := nip, branch := .inactive uuid, status := 404, stops := [], sms := none,
          holdsMu := false, exit := .returned }
      else
        let r := SendSMS c (nip.Conversations.delete key) recipient ackMessage uuid true k http
        { nip := { nip with Conversations := r.Conversations }, branch := .acknowledged uuid,
          status := 200, stops := [uuid], sms := some r.request, holdsMu := false,
          exit := r.exit }
    | none =>
      let r := SendSMS c nip.Conversations recipient unrecognizedMessage "" true k http
      { nip := { nip with Conversations := r.Conversations }, branch := .unrecognized,
        status := 200, stops := [], sms := some r.request, holdsMu := true, exit := r.exit }

/-! ## Concrete inputs -/

/-- A configuration. -/
def cfg : Config :=
  { CallFromNumber := "+15550000", CallbackURLBase := "https://cl.example.org",
    APIBaseURL := "https://api.twilio.com/2010-04-01/Accounts/", AccountSID := "AC0",
    AuthToken := "secret" }

/-- A well-formed provider answer that echoes `recipient`. -/
def echo (recipient : String) : SMSResponse :=
  { Sid := "SM0", DateCreated := "", DateUpdated := "", DateSent := "", AccountSid := "AC0",
    To := recipient, From := "+15550000", Body := "", NumSegments := "1", Status := "queued",
    Direction := "outbound-api", Price := "", PriceUnit := "USD", ApiVersion := "2010-04-01",
    Uri := "" }

/-- A state in which a conversation is still recorded for plan "p1", which is
no longer in progress. -/
def staleNIP : NIPState :=
  { Stoppers := GoMap.empty,
    Conversations := GoMap.empty.set (conversationKey "+15550100" "123") "p1" }

/-- A state in which plan "p1" is in progress and has one conversation. -/
def liveNIP : NIPState :=
  { Stoppers := GoMap.empty.set "p1" 0,
    Conversations := GoMap.empty.set (conversationKey "+15550100" "123") "p1" }

/-- A plan without steps. -/
def planEmpty : NotificationPlan := { ID := "p0", Steps := [] }

/-! ## planHandler: lemmas -/

/-- What holds of a goroutine that is blocked in the `select` of step `m` and
was never cancelled. -/
structure Waiting (np : NotificationPlan) (h : Handler) (m : Nat) : Prop where
  pc : ∃ s, np.Steps[m]? = some s ∧ h.pc = .select m s
  timer : h.timerChan = .armed ↔ m + 1 < np.Steps.length
  ticker : h.tickerChan = true ↔ m + 1 = np.Steps.length
  quiet : dispatches h.out = []
  order : entered h.out = List.range (m + 1)

lemma Waiting.lt {np : NotificationPlan} {h : Handler} {m : Nat} (w : Waiting np h m) :
    m < np.Steps.length := by
  obtain ⟨s, hs, _⟩ := w.pc
  by_contra hlt
  rw [List.getElem?_eq_none (by omega)] at hs
  cases hs

lemma Waiting.step? {np : NotificationPlan} {h : Handler} {m : Nat} (w : Waiting np h m) :
    h.step? = some m := by
  obtain ⟨s, _, hpc⟩ := w.pc
  simp [Handler.step?, hpc]

lemma dispatches_append (a b : List Effect) :
    dispatches (a ++ b) = dispatches a ++ dispatches b := by
  simp [dispatches]

lemma entered_append (a b : List Effect) : entered (a ++ b) = entered a ++ entered b := by
  simp [entered]

lemma retries_append (a b : List Effect) : retries (a ++ b) = retries a + retries b := by
  simp [retries]

/-- Entering step `n` from a state that entered `0 .. n-1` and holds no armed
timer after the last step. -/
lemma enterStep_waiting (np : NotificationPlan) (h : Handler) (n : Nat) (s : Step)
    (hs : np.Steps[n]? = some s) (hq : dispatches h.out = [])
    (ho : entered h.out = List.range n) (ht : h.timerChan ≠ .armed)
    (hk : h.tickerChan = false)
    (hpos : n + 1 = np.Steps.length → 0 < s.NotifyEveryPeriod) :
    Waiting np (enterStep np h n s) n := by
  have hlt : n < np.Steps.length := by
    by_contra hlt
    rw [List.getElem?_eq_none (by omega)] at hs
    cases hs
  unfold enterStep
  by_cases hlast : (n : Int) = (np.Steps.length : Int) - 1
  · rw [if_pos hlast, if_pos (hpos (by omega))]
    refine ⟨⟨s, hs, rfl⟩, ?_, ?_, ?_, ?_⟩
    · constructor
      · intro h1; exact absurd h1 ht
      · intro h1; omega
    · constructor
      · intro _; omega
      · intro _; rfl
    · simp only [dispatches_append, hq]; simp [dispatches, Effect.isDispatch]
    · simp only [entered_append, ho]; simp [entered, List.range_succ]
  · rw [if_neg hlast]
    refine ⟨⟨s, hs, rfl⟩, ?_, ?_, ?_, ?_⟩
    · constructor
      · intro _; omega
      · intro _; rfl
    · constructor
      · intro h1; simp [hk] at h1
      · intro h1; omega
    · simp only [dispatches_append, hq]; simp [dispatches, Effect.isDispatch]
    · simp only [entered_append, ho]; simp [entered, List.range_succ]

/-- The period of the last step of a plan whose ticker period is positive. -/
lemma tickerOK_last (np : NotificationPlan) (n : Nat) (s : Step) (hok : np.tickerOK = true)
    (hs : np.Steps[n]? = some s) (hn : n + 1 = np.Steps.length) : 0 < s.NotifyEveryPeriod := by
  have hl : np.Steps.getLast? = some s := by
    rw [List.getLast?_eq_getElem?]
    have e1 : np.Steps.length - 1 = n := by omega
    rw [e1]
    exact hs
  unfold NotificationPlan.tickerOK at hok
  rw [hl] at hok
  simpa using hok

/-- A plan with at least one step starts waiting in step 0, when that step is
not the last or its ticker period is positive. -/
lemma planHandler_waiting (np : NotificationPlan) (hk : 1 ≤ np.Steps.length)
    (hok : np.Steps.length = 1 → np.tickerOK = true) :
    Waiting np (planHandler np) 0 := by
  have h0 : np.Steps[0]? = some (np.Steps[0]) := List.getElem?_eq_getElem (by omega)
  unfold planHandler iterate
  rw [h0]
  exact enterStep_waiting np _ 0 _ h0 (by simp [dispatches, Effect.isDispatch])
    (by simp [entered]) (by simp) rfl
    (fun h1 => tickerOK_last np 0 _ (hok h1.symm) h0 h1)

/-- Before the last step the timer's expiry moves on to the next step. -/
lemma select_timer_advance (np : NotificationPlan) (h : Handler) (reg : GoMap Chan) (m : Nat)
    (w : Waiting np h m) (hm : m + 1 < np.Steps.length) (hok : np.tickerOK = true) :
    Waiting np (select np h reg .timer).1 (m + 1) ∧ (select np h reg .timer).2 = reg := by
  obtain ⟨s, hs, hpc⟩ := w.pc
  have ha : h.timerChan = .armed := w.timer.2 hm
  have hk : h.tickerChan = false := by
    cases hb : h.tickerChan with
    | false => rfl
    | true => have := w.ticker.1 hb; omega
  have h1 : np.Steps[m + 1]? = some (np.Steps[m + 1]) := List.getElem?_eq_getElem hm
  simp only [select, hpc, ha, if_true, iterate, h1]
  refine ⟨enterStep_waiting np _ (m + 1) _ h1 ?_ ?_ (by simp) hk
    (fun hn => tickerOK_last np (m + 1) _ hok h1 hn), trivial⟩
  · simp only [dispatches_append, w.quiet]; simp [dispatches, Effect.isDispatch]
  · simp only [entered_append, w.order]; simp [entered]

/-- In the last step the timer channel delivers nothing. -/
lemma select_timer_last (np : NotificationPlan) (h : Handler) (reg : GoMap Chan) (m : Nat)
    (w : Waiting np h m) (hm : m + 1 = np.Steps.length) :
    select np h reg .timer = (h, reg) := by
  obtain ⟨s, hs, hpc⟩ := w.pc
  have ha : h.timerChan ≠ .armed := fun ha => by have := w.timer.1 ha; omega
  simp [select, hpc, ha]

/-- Before the last step the ticker channel is nil. -/
lemma select_ticker_early (np : NotificationPlan) (h : Handler) (reg : GoMap Chan) (m : Nat)
    (w : Waiting np h m) (hm : m + 1 < np.Steps.length) :
    select np h reg .ticker = (h, reg) := by
  obtain ⟨s, hs, hpc⟩ := w.pc
  have hk : h.tickerChan = false := by
    cases hb : h.tickerChan with
    | false => rfl
    | true => have := w.ticker.1 hb; omega
  simp [select, hpc, hk]

/-- In the last step a tick logs a retry and waits on. -/
lemma select_ticker_last (np : NotificationPlan) (h : Handler) (reg : GoMap Chan) (m : Nat)
    (w : Waiting np h m) (hm : m + 1 = np.Steps.length) :
    Waiting np (select np h reg .ticker).1 m ∧ (select np h reg .ticker).2 = reg ∧
      retries (select np h reg .ticker).1.out = retries h.out + 1 := by
  obtain ⟨s, hs, hpc⟩ := w.pc
  have hk : h.tickerChan = true := w.ticker.2 hm
  simp only [select, hpc, hk, if_true]
  refine ⟨⟨⟨s, hs, rfl⟩, w.timer, ⟨fun _ => hm, fun _ => rfl⟩, ?_, ?_⟩, trivial, ?_⟩
  · simp only [dispatches_append, w.quiet]; simp [dispatches, Effect.isDispatch]
  · simp only [entered_append, w.order]; simp [entered]
  · simp [retries_append, retries]

lemma run_nil (np : NotificationPlan) (h : Handler) (reg : GoMap Chan) :
    run np h reg [] = (h, reg) := rfl

lemma run_cons (np : NotificationPlan) (h : Handler) (reg : GoMap Chan) (e : Event)
    (evs : List Event) :
    run np h reg (e :: evs) = run np (select np h reg e).1 (select np h reg e).2 evs := rfl

lemma run_append (np : NotificationPlan) (h : Handler) (reg : GoMap Chan)
    (evs evs' : List Event) :
    run np h reg (evs ++ evs') = run np (run np h reg evs).1 (run np h reg evs).2 evs' := by
  simp [run, List.foldl_append]

/-- Without a cancellation the goroutine waits in the step numbered by the
timer expiries so far, capped at the last step; the registry is untouched. -/
lemma run_waiting (np : NotificationPlan) (reg : GoMap Chan) (evs : List Event)
    (hok : np.tickerOK = true) :
    ∀ (h : Handler) (m : Nat), Waiting np h m → Event.stop ∉ evs →
      Waiting np (run np h reg evs).1 (min (m + evs.count .timer) (np.Steps.length - 1)) ∧
        (run np h reg evs).2 = reg := by
  induction evs with
  | nil =>
    intro h m w _
    have := w.lt
    simp only [run_nil, List.count_nil, Nat.add_zero]
    rw [Nat.min_eq_left (by omega)]
    exact ⟨w, trivial⟩
  | cons e evs ih =>
    intro h m w hns
    have hlt := w.lt
    have hns' : Event.stop ∉ evs := fun hc => hns (List.mem_cons_of_mem _ hc)
    rw [run_cons]
    cases e with
    | stop => exact absurd (List.mem_cons_self _ _) hns
    | timer =>
      by_cases hm : m + 1 < np.Steps.length
      · obtain ⟨w1, hr⟩ := select_timer_advance np h reg m w hm hok
        rw [hr]
        have := ih _ (m + 1) w1 hns'
        simpa [List.count_cons, Nat.add_assoc, Nat.add_comm 1] using this
      · have hm' : m + 1 = np.Steps.length := by omega
        rw [select_timer_last np h reg m w hm']
        have := ih h m w hns'
        have e1 : min (m + evs.count Event.timer) (np.Steps.length - 1)
            = min (m + (Event.timer :: evs).count Event.timer) (np.Steps.length - 1) := by
          simp only [List.count_cons, beq_self_eq_true, if_true]
          omega
        rw [← e1]
        exact this
    | ticker =>
      have hc : (Event.ticker :: evs).count Event.timer = evs.count Event.timer := by
        simp [List.count_cons]
      rw [hc]
      by_cases hm : m + 1 < np.Steps.length
      · rw [select_ticker_early np h reg m w hm]
        exact ih h m w hns'
      · have hm' : m + 1 = np.Steps.length := by omega
        obtain ⟨w1, hr, _⟩ := select_ticker_last np h reg m w hm'
        rw [hr]
        exact ih _ m w1 hns'

lemma enterStep_retries (np : NotificationPlan) (h : Handler) (n : Nat) (s : Step) :
    retries (enterStep np h n s).out = retries h.out := by
  unfold enterStep
  split
  · split <;> simp [retries_append, retries]
  · simp [retries_append, retries]

lemma iterate_retries (np : NotificationPlan) (h : Handler) (n : Nat) :
    retries (iterate np h n).out = retries h.out := by
  unfold iterate
  split
  · exact enterStep_retries np h n _
  · rfl

lemma planHandler_retries (np : NotificationPlan) : retries (planHandler np).out = 0 := by
  unfold planHandler
  rw [iterate_retries]
  simp [retries]

/-- The timer branch logs no retry. -/
lemma select_timer_retries (np : NotificationPlan) (h : Handler) (reg : GoMap Chan) :
    retries (select np h reg .timer).1.out = retries h.out := by
  cases hpc : h.pc with
  | select n s =>
    by_cases ha : h.timerChan = .armed
    · simp only [select, hpc, ha, if_true]
      rw [iterate_retries]
      simp [retries_append, retries]
    · simp [select, hpc, ha]
  | stopped => simp [select, hpc]
  | finished => simp [select, hpc]
  | panicked => simp [select, hpc]

/-- A goroutine never makes a contact dispatch when it enters a step. -/
lemma enterStep_quiet (np : NotificationPlan) (h : Handler) (n : Nat) (s : Step) :
    dispatches (enterStep np h n s).out = dispatches h.out := by
  unfold enterStep
  split
  · split <;> simp [dispatches, Effect.isDispatch]
  · simp [dispatches, Effect.isDispatch]

lemma iterate_quiet (np : NotificationPlan) (h : Handler) (n : Nat) :
    dispatches (iterate np h n).out = dispatches h.out := by
  unfold iterate
  split
  · exact enterStep_quiet np h n _
  · rfl

lemma planHandler_quiet (np : NotificationPlan) : dispatches (planHandler np).out = [] := by
  unfold planHandler
  rw [iterate_quiet]
  simp [dispatches, Effect.isDispatch]

/-- No branch of the `select` makes a contact dispatch. -/
lemma select_quiet (np : NotificationPlan) (h : Handler) (reg : GoMap Chan) (e : Event) :
    dispatches (select np h reg e).1.out = dispatches h.out := by
  cases hpc : h.pc with
  | select n s =>
    cases e with
    | timer =>
      by_cases ha : h.timerChan = .armed
      · simp only [select, hpc, ha, if_true]
        rw [iterate_quiet]
        simp [dispatches, Effect.isDispatch]
      · simp [select, hpc, ha]
    | ticker =>
      by_cases hk : h.tickerChan = true
      · simp [select, hpc, hk, dispatches, Effect.isDispatch]
      · simp [select, hpc, hk]
    | stop => simp [select, hpc, dispatches, Effect.isDispatch]
  | stopped => simp [select, hpc]
  | finished => simp [select, hpc]
  | panicked => simp [select, hpc]

/-- No run of a goroutine makes a contact dispatch. -/
lemma run_quiet (np : NotificationPlan) (evs : List Event) :
    ∀ (h : Handler) (r : GoMap Chan), dispatches (run np h r evs).1.out = dispatches h.out := by
  induction evs with
  | nil => intro h r; rfl
  | cons e evs ih =>
    intro h r
    rw [run_cons, ih, select_quiet]

/-- In the last step the retries are counted by the ticks. -/
lemma run_last_retries (np : NotificationPlan) (reg : GoMap Chan) (m : Nat) (evs : List Event) :
    ∀ h : Handler, Waiting np h m → m + 1 = np.Steps.length → Event.stop ∉ evs →
      retries (run np h reg evs).1.out = retries h.out + evs.count .ticker := by
  induction evs with
  | nil => intro h _ _ _; simp [run_nil]
  | cons e evs ih =>
    intro h w hm hns
    have hns' : Event.stop ∉ evs := fun hc => hns (List.mem_cons_of_mem _ hc)
    rw [run_cons]
    cases e with
    | stop => exact absurd (List.mem_cons_self _ _) hns
    | timer =>
      rw [select_timer_last np h reg m w hm, ih h w hm hns']
      simp [List.count_cons]
    | ticker =>
      obtain ⟨w1, hr, hret⟩ := select_ticker_last np h reg m w hm
      rw [hr, ih _ w1 hm hns', hret]
      simp [List.count_cons]
      omega

/-- In the step before the last, nothing happens until the timer expires, and
the retries are the ticks after that expiry. -/
lemma run_penultimate_retries (np : NotificationPlan) (reg : GoMap Chan) (m : Nat)
    (evs : List Event) :
    ∀ h : Handler, Waiting np h m → m + 2 = np.Steps.length → Event.stop ∉ evs →
      (Event.timer ∉ evs → run np h reg evs = (h, reg)) ∧
      (Event.timer ∈ evs → np.tickerOK = true → retries (run np h reg evs).1.out
          = retries h.out + (evs.dropWhile (fun e => decide (e ≠ Event.timer))).count .ticker) := by
  induction evs with
  | nil => intro h _ _ _; simp [run_nil]
  | cons e evs ih =>
    intro h w hm hns
    have hns' : Event.stop ∉ evs := fun hc => hns (List.mem_cons_of_mem _ hc)
    rw [run_cons]
    cases e with
    | stop => exact absurd (List.mem_cons_self _ _) hns
    | timer =>
      refine ⟨fun hc => absurd (List.mem_cons_self _ _) hc, fun _ hok => ?_⟩
      obtain ⟨w1, hr⟩ := select_timer_advance np h reg m w (by omega) hok
      rw [hr, run_last_retries np reg (m + 1) evs _ w1 (by omega) hns', select_timer_retries]
      simp [List.dropWhile_cons, List.count_cons]
    | ticker =>
      rw [select_ticker_early np h reg m w (by omega)]
      obtain ⟨ih1, ih2⟩ := ih h w hm hns'
      refine ⟨fun hc => ih1 (fun hc1 => hc (List.mem_cons_of_mem _ hc1)), fun hc hok => ?_⟩
      have hc1 : Event.timer ∈ evs := by
        rcases List.mem_cons.1 hc with h1 | h1
        · cases h1
        · exact h1
      rw [ih2 hc1 hok]
      simp [List.dropWhile_cons]

/-! ## The dispatcher: lemmas -/

/-- What holds of the engine as long as every submitted plan has a step and a
positive ticker period, and the identifiers are pairwise distinct. -/
structure EngineInv (e : Engine) : Prop where
  free : e.blocked = false
  live : e.crashed = false
  ok : ∀ g ∈ e.goroutines, g.np.tickerOK = true
  chans : ∀ g ∈ e.goroutines, g.sc < e.nextChan
  distinct : (e.goroutines.map Goroutine.sc).Nodup
  alive : ∀ g ∈ e.goroutines, g.h.pc = .stopped ∨ ∃ m, Waiting g.np g.h m
  reg : ∀ g ∈ e.goroutines, g.listening = true → e.Stoppers g.np.ID = some g.sc
  only : ∀ id c, e.Stoppers id = some c →
    ∃ g ∈ e.goroutines, g.np.ID = id ∧ g.sc = c ∧ g.listening = true

lemma select_reg_of_ne_stop (np : NotificationPlan) (h : Handler) (reg : GoMap Chan)
    (ev : Event) (hev : ev ≠ .stop) : (select np h reg ev).2 = reg := by
  cases hpc : h.pc with
  | select n s =>
    cases ev with
    | stop => exact absurd rfl hev
    | timer => by_cases ha : h.timerChan = .armed <;> simp [select, hpc, ha]
    | ticker => by_cases hk : h.tickerChan = true <;> simp [select, hpc, hk]
  | stopped => simp [select, hpc]
  | finished => simp [select, hpc]
  | panicked => simp [select, hpc]

lemma select_alive (np : NotificationPlan) (h : Handler) (reg : GoMap Chan) (ev : Event)
    (m : Nat) (w : Waiting np h m) (hev : ev ≠ .stop) (hok : np.tickerOK = true) :
    ∃ m1, Waiting np (select np h reg ev).1 m1 := by
  have hlt := w.lt
  cases ev with
  | stop => exact absurd rfl hev
  | timer =>
    by_cases hm : m + 1 < np.Steps.length
    · exact ⟨m + 1, (select_timer_advance np h reg m w hm hok).1⟩
    · rw [select_timer_last np h reg m w (by omega)]
      exact ⟨m, w⟩
  | ticker =>
    by_cases hm : m + 1 < np.Steps.length
    · rw [select_ticker_early np h reg m w hm]
      exact ⟨m, w⟩
    · exact ⟨m, (select_ticker_last np h reg m w (by omega)).1⟩

lemma select_stop_of_waiting (np : NotificationPlan) (h : Handler) (reg : GoMap Chan) (m : Nat)
    (w : Waiting np h m) :
    (select np h reg .stop).1.pc = .stopped ∧ (select np h reg .stop).2 = reg.delete np.ID := by
  obtain ⟨s, _, hpc⟩ := w.pc
  simp [select, hpc]

lemma listening_of_waiting (g : Goroutine) (m : Nat) (w : Waiting g.np g.h m) :
    g.listening = true := by
  simp [Goroutine.listening, w.step?]

lemma not_listening_of_stopped (g : Goroutine) (hs : g.h.pc = .stopped) :
    g.listening = false := by
  simp [Goroutine.listening, Handler.step?, hs]

/-- A delivery reaches one goroutine, the first that listens on the channel. -/
lemma deliver_some (c : Chan) (ev : Event) :
    ∀ (gs : List Goroutine) (reg : GoMap Chan) (gs1 : List Goroutine) (reg1 : GoMap Chan),
      deliver c ev gs reg = some (gs1, reg1) →
      ∃ pre g post, gs = pre ++ g :: post ∧ g.sc = c ∧ g.listening = true ∧
        gs1 = pre ++ { g with h := (select g.np g.h reg ev).1 } :: post ∧
        reg1 = (select g.np g.h reg ev).2 := by
  intro gs
  induction gs with
  | nil => intro reg gs1 reg1 hd; simp [deliver] at hd
  | cons g gs ih =>
    intro reg gs1 reg1 hd
    unfold deliver at hd
    by_cases hg : g.sc = c ∧ g.listening = true
    · rw [if_pos hg] at hd
      simp only [Option.some.injEq, Prod.mk.injEq] at hd
      exact ⟨[], g, gs, rfl, hg.1, hg.2, hd.1.symm, hd.2.symm⟩
    · rw [if_neg hg] at hd
      cases hrec : deliver c ev gs reg with
      | none => rw [hrec] at hd; cases hd
      | some p =>
        obtain ⟨gs2, reg2⟩ := p
        rw [hrec] at hd
        simp only [Option.some.injEq, Prod.mk.injEq] at hd
        obtain ⟨pre, g0, post, h1, h2, h3, h4, h5⟩ := ih reg gs2 reg2 hrec
        refine ⟨g :: pre, g0, post, by rw [h1]; rfl, h2, h3, ?_, ?_⟩
        · rw [← hd.1, h4]; rfl
        · rw [← hd.2, h5]

/-- A delivery fails only when no goroutine listens on the channel. -/
lemma deliver_none (c : Chan) (ev : Event) :
    ∀ (gs : List Goroutine) (reg : GoMap Chan), deliver c ev gs reg = none →
      ∀ g ∈ gs, ¬ (g.sc = c ∧ g.listening = true) := by
  intro gs
  induction gs with
  | nil => intro reg _ g hg; cases hg
  | cons g0 gs ih =>
    intro reg hd g hg
    unfold deliver at hd
    by_cases hg0 : g0.sc = c ∧ g0.listening = true
    · rw [if_pos hg0] at hd; cases hd
    · rw [if_neg hg0] at hd
      cases hrec : deliver c ev gs reg with
      | some p => rw [hrec] at hd; cases hd
      | none =>
        rcases List.mem_cons.1 hg with h1 | h1
        · rw [h1]; exact hg0
        · exact ih reg hrec g h1

lemma anyPanicked_of_alive (gs : List Goroutine)
    (halive : ∀ g ∈ gs, g.h.pc = .stopped ∨ ∃ m, Waiting g.np g.h m) :
    anyPanicked gs = false := by
  unfold anyPanicked
  rw [List.any_eq_false]
  intro g hg
  rcases halive g hg with h1 | ⟨m, w⟩
  · simp [h1]
  · obtain ⟨s, _, hpc⟩ := w.pc
    simp [hpc]

lemma startEngine_inv : EngineInv StartNotificationEngine where
  free := rfl
  live := rfl
  ok := fun g hg => by cases hg
  chans := fun g hg => by cases hg
  distinct := List.nodup_nil
  alive := fun g hg => by cases hg
  reg := fun g hg => by cases hg
  only := fun id c hc => by simp [StartNotificationEngine, GoMap.empty] at hc

/-- Accepting a plan with a step and an unused identifier keeps the invariant. -/
lemma newPlan_inv (e : Engine) (np : NotificationPlan) (hinv : EngineInv e)
    (hs : np.Steps ≠ []) (hok : np.tickerOK = true)
    (hid : np.ID ∉ e.goroutines.map (fun g => g.np.ID)) :
    EngineInv (e.newPlan np) := by
  have hk : 1 ≤ np.Steps.length := by
    cases hnp : np.Steps with
    | nil => exact absurd hnp hs
    | cons a l => simp
  have w0 : Waiting np (planHandler np) 0 := planHandler_waiting np hk (fun _ => hok)
  have hid1 : ∀ g ∈ e.goroutines, g.np.ID ≠ np.ID := by
    intro g hg heq
    exact hid (List.mem_map.2 ⟨g, hg, heq⟩)
  have hmem : ∀ g, g ∈ (e.newPlan np).goroutines ↔
      g ∈ e.goroutines ∨ g = { np := np, sc := e.nextChan, h := planHandler np } := by
    intro g
    simp [Engine.newPlan]
  refine ⟨hinv.free, ?_, ?_, ?_, ?_, ?_, ?_, ?_⟩
  · obtain ⟨s, _, hpc⟩ := w0.pc
    simp [Engine.newPlan, hpc]
  · intro g hg
    rcases (hmem g).1 hg with h1 | h1
    · exact hinv.ok g h1
    · rw [h1]; exact hok
  · intro g hg
    rcases (hmem g).1 hg with h1 | h1
    · exact Nat.lt_succ_of_lt (hinv.chans g h1)
    · rw [h1]; simp [Engine.newPlan]
  · simp only [Engine.newPlan, List.map_append, List.map_cons, List.map_nil]
    rw [List.nodup_append]
    refine ⟨hinv.distinct, List.nodup_singleton _, ?_⟩
    intro a ha hb
    rw [List.mem_singleton] at hb
    obtain ⟨g, hg, hga⟩ := List.mem_map.1 ha
    have hlt := hinv.chans g hg
    rw [hga, hb] at hlt
    exact Nat.lt_irrefl _ hlt
  · intro g hg
    rcases (hmem g).1 hg with h1 | h1
    · exact hinv.alive g h1
    · rw [h1]; exact Or.inr ⟨0, w0⟩
  · intro g hg hl
    rcases (hmem g).1 hg with h1 | h1
    · have := hinv.reg g h1 hl
      simpa [Engine.newPlan, GoMap.set, hid1 g h1] using this
    · rw [h1]; simp [Engine.newPlan, GoMap.set]
  · intro id c hc
    by_cases hidc : id = np.ID
    · refine ⟨{ np := np, sc := e.nextChan, h := planHandler np }, (hmem _).2 (Or.inr rfl),
        hidc.symm, ?_, listening_of_waiting _ 0 w0⟩
      simpa [Engine.newPlan, GoMap.set, hidc] using hc
    · have hc1 : e.Stoppers id = some c := by
        simpa [Engine.newPlan, GoMap.set, hidc] using hc
      obtain ⟨g, hg, h1, h2, h3⟩ := hinv.only id c hc1
      exact ⟨g, (hmem g).2 (Or.inl hg), h1, h2, h3⟩

/-- A delivery to a goroutine keeps the invariant, and the plans and channels
of the goroutines. -/
lemma deliver_inv (e e1 : Engine) (c : Chan) (ev : Event) (hinv : EngineInv e)
    (hnd : (e.goroutines.map (fun g => g.np.ID)).Nodup)
    (hd : deliver c ev e.goroutines e.Stoppers = some (e1.goroutines, e1.Stoppers))
    (hn : e1.nextChan = e.nextChan) (hb : e1.blocked = e.blocked)
    (hc : e1.crashed = e.crashed ∨ e1.crashed = anyPanicked e1.goroutines) :
    EngineInv e1 ∧
      e1.goroutines.map (fun g => g.np.ID) = e.goroutines.map (fun g => g.np.ID) := by
  obtain ⟨pre, g, post, hgs, hsc, hl, hgs1, hreg1⟩ := deliver_some c ev _ _ _ _ hd
  have hgmem : g ∈ e.goroutines := by rw [hgs]; simp
  have hw : ∃ m, Waiting g.np g.h m := by
    rcases hinv.alive g hgmem with h1 | h1
    · rw [not_listening_of_stopped g h1] at hl; cases hl
    · exact h1
  obtain ⟨m, w⟩ := hw
  have hmem1 : ∀ x, x ∈ e1.goroutines ↔
      x ∈ pre ∨ x = { g with h := (select g.np g.h e.Stoppers ev).1 } ∨ x ∈ post := by
    intro x; rw [hgs1]; simp
  have hmem0 : ∀ x, x ∈ e.goroutines ↔ x ∈ pre ∨ x = g ∨ x ∈ post := by
    intro x; rw [hgs]; simp
  have hother : ∀ x, x ∈ pre ∨ x ∈ post → x.np.ID ≠ g.np.ID := by
    intro x hx heq
    rw [hgs, List.map_append, List.map_cons, List.nodup_middle, List.nodup_cons] at hnd
    apply hnd.1
    rw [← List.map_append, ← heq]
    exact List.mem_map.2 ⟨x, List.mem_append.2 hx, rfl⟩
  have hids : e1.goroutines.map (fun g => g.np.ID) = e.goroutines.map (fun g => g.np.ID) := by
    rw [hgs1, hgs]; simp
  have hscs : e1.goroutines.map Goroutine.sc = e.goroutines.map Goroutine.sc := by
    rw [hgs1, hgs]; simp
  have hgok : g.np.tickerOK = true := hinv.ok g hgmem
  have halive : ∀ x ∈ e1.goroutines, x.h.pc = .stopped ∨ ∃ m, Waiting x.np x.h m := by
    intro x hx
    rcases (hmem1 x).1 hx with h1 | h1 | h1
    · exact hinv.alive x ((hmem0 x).2 (Or.inl h1))
    · rw [h1]
      by_cases hev : ev = .stop
      · left; rw [hev]; exact (select_stop_of_waiting g.np g.h e.Stoppers m w).1
      · right; exact select_alive g.np g.h e.Stoppers ev m w hev hgok
    · exact hinv.alive x ((hmem0 x).2 (Or.inr (Or.inr h1)))
  refine ⟨⟨by rw [hb]; exact hinv.free, ?_, ?_, ?_, by rw [hscs]; exact hinv.distinct, halive,
    ?_, ?_⟩, hids⟩
  · rcases hc with h1 | h1
    · rw [h1]; exact hinv.live
    · rw [h1]; exact anyPanicked_of_alive _ halive
  · intro x hx
    rcases (hmem1 x).1 hx with h1 | h1 | h1
    · exact hinv.ok x ((hmem0 x).2 (Or.inl h1))
    · rw [h1]; exact hgok
    · exact hinv.ok x ((hmem0 x).2 (Or.inr (Or.inr h1)))
  · intro x hx
    rw [hn]
    rcases (hmem1 x).1 hx with h1 | h1 | h1
    · exact hinv.chans x ((hmem0 x).2 (Or.inl h1))
    · rw [h1]; exact hinv.chans g hgmem
    · exact hinv.chans x ((hmem0 x).2 (Or.inr (Or.inr h1)))
  · intro x hx hlx
    by_cases hev : ev = .stop
    · have hdel : e1.Stoppers = e.Stoppers.delete g.np.ID := by
        rw [hreg1, hev]; exact (select_stop_of_waiting g.np g.h e.Stoppers m w).2
      rcases (hmem1 x).1 hx with h1 | h1 | h1
      · have := hinv.reg x ((hmem0 x).2 (Or.inl h1)) hlx
        simpa [hdel, GoMap.delete, hother x (Or.inl h1)] using this
      · exfalso
        have hstop : x.h.pc = .stopped := by
          rw [h1, hev]; exact (select_stop_of_waiting g.np g.h e.Stoppers m w).1
        rw [not_listening_of_stopped x hstop] at hlx
        cases hlx
      · have := hinv.reg x ((hmem0 x).2 (Or.inr (Or.inr h1))) hlx
        simpa [hdel, GoMap.delete, hother x (Or.inr h1)] using this
    · have hsame : e1.Stoppers = e.Stoppers := by
        rw [hreg1]; exact select_reg_of_ne_stop g.np g.h e.Stoppers ev hev
      rw [hsame]
      rcases (hmem1 x).1 hx with h1 | h1 | h1
      · exact hinv.reg x ((hmem0 x).2 (Or.inl h1)) hlx
      · rw [h1]; exact hinv.reg g hgmem hl
      · exact hinv.reg x ((hmem0 x).2 (Or.inr (Or.inr h1))) hlx
  · intro id c1 hc
    by_cases hev : ev = .stop
    · have hdel : e1.Stoppers = e.Stoppers.delete g.np.ID := by
        rw [hreg1, hev]; exact (select_stop_of_waiting g.np g.h e.Stoppers m w).2
      rw [hdel] at hc
      have hidne : id ≠ g.np.ID := by
        intro heq; simp [GoMap.delete, heq] at hc
      have hc0 : e.Stoppers id = some c1 := by simpa [GoMap.delete, hidne] using hc
      obtain ⟨y, hy, h1, h2, h3⟩ := hinv.only id c1 hc0
      rcases (hmem0 y).1 hy with h4 | h4 | h4
      · exact ⟨y, (hmem1 y).2 (Or.inl h4), h1, h2, h3⟩
      · exact absurd (by rw [← h1, h4]) hidne
      · exact ⟨y, (hmem1 y).2 (Or.inr (Or.inr h4)), h1, h2, h3⟩
    · have hsame : e1.Stoppers = e.Stoppers := by
        rw [hreg1]; exact select_reg_of_ne_stop g.np g.h e.Stoppers ev hev
      rw [hsame] at hc
      obtain ⟨y, hy, h1, h2, h3⟩ := hinv.only id c1 hc
      rcases (hmem0 y).1 hy with h4 | h4 | h4
      · exact ⟨y, (hmem1 y).2 (Or.inl h4), h1, h2, h3⟩
      · obtain ⟨m1, w1⟩ := select_alive g.np g.h e.Stoppers ev m w hev hgok
        refine ⟨{ g with h := (select g.np g.h e.Stoppers ev).1 }, (hmem1 _).2 (Or.inr (Or.inl rfl)),
          by rw [← h1, h4], by rw [← h2, h4], listening_of_waiting _ m1 w1⟩
      · exact ⟨y, (hmem1 y).2 (Or.inr (Or.inr h4)), h1, h2, h3⟩

/-- One engine step keeps the invariant, when a submitted plan has a step, a
positive ticker period and an identifier no earlier plan had. -/
lemma step_inv (e : Engine) (ev : EngineEvent) (hinv : EngineInv e)
    (hsteps : ∀ np ∈ submitted [ev], np.Steps ≠ [] ∧ np.tickerOK = true)
    (hnd : (e.goroutines.map (fun g => g.np.ID) ++ (submitted [ev]).map (fun np => np.ID)).Nodup) :
    EngineInv (e.step ev) ∧
      (e.step ev).goroutines.map (fun g => g.np.ID)
        = e.goroutines.map (fun g => g.np.ID) ++ (submitted [ev]).map (fun np => np.ID) := by
  have hnd0 : (e.goroutines.map (fun g => g.np.ID)).Nodup := List.Nodup.of_append_left hnd
  have hstep : e.step ev = e.serve ev := by simp [Engine.step, hinv.live]
  rw [hstep]
  cases ev with
  | plan np =>
    have hfree := hinv.free
    simp only [Engine.serve, hfree]
    have hid : np.ID ∉ e.goroutines.map (fun g => g.np.ID) := by
      intro hmem
      rw [List.nodup_append] at hnd
      exact hnd.2.2 hmem (by simp [submitted])
    have hnp := hsteps np (by simp [submitted])
    refine ⟨newPlan_inv e np hinv hnp.1 hnp.2 hid, ?_⟩
    simp [Engine.newPlan, submitted]
  | stopUUID id =>
    have hfree := hinv.free
    simp only [Engine.serve, hfree, submitted, List.filterMap_cons, List.filterMap_nil,
      List.map_nil, List.append_nil]
    simp only [Bool.false_eq_true, if_false]
    unfold Engine.stop
    cases hreg : e.Stoppers id with
    | none => exact ⟨hinv, rfl⟩
    | some c =>
      simp only
      cases hd : deliver c .stop e.goroutines e.Stoppers with
      | none =>
        exfalso
        obtain ⟨g, hg, _, h2, h3⟩ := hinv.only id c hreg
        exact deliver_none c .stop _ _ hd g hg ⟨h2, h3⟩
      | some p =>
        obtain ⟨gs, reg⟩ := p
        exact deliver_inv e _ c .stop hinv hnd0 hd rfl rfl (Or.inl rfl)
  | timer c =>
    simp only [Engine.serve, submitted, List.filterMap_cons, List.filterMap_nil,
      List.map_nil, List.append_nil]
    cases hd : deliver c .timer e.goroutines e.Stoppers with
    | none => exact ⟨hinv, rfl⟩
    | some p =>
      obtain ⟨gs, reg⟩ := p
      exact deliver_inv e _ c .timer hinv hnd0 hd rfl rfl (Or.inr rfl)
  | ticker c =>
    simp only [Engine.serve, submitted, List.filterMap_cons, List.filterMap_nil,
      List.map_nil, List.append_nil]
    cases hd : deliver c .ticker e.goroutines e.Stoppers with
    | none => exact ⟨hinv, rfl⟩
    | some p =>
      obtain ⟨gs, reg⟩ := p
      exact deliver_inv e _ c .ticker hinv hnd0 hd rfl rfl (Or.inl rfl)

lemma submitted_cons (ev : EngineEvent) (evs : List EngineEvent) :
    submitted (ev :: evs) = submitted [ev] ++ submitted evs := by
  cases ev <;> simp [submitted]

/-- The invariant holds along every run from a state in which it holds. -/
lemma foldl_step_inv (evs : List EngineEvent) :
    ∀ e : Engine, EngineInv e →
      (∀ np ∈ submitted evs, np.Steps ≠ [] ∧ np.tickerOK = true) →
      (e.goroutines.map (fun g => g.np.ID) ++ (submitted evs).map (fun np => np.ID)).Nodup →
      EngineInv (evs.foldl Engine.step e) := by
  induction evs with
  | nil => intro e hinv _ _; exact hinv
  | cons ev evs ih =>
    intro e hinv hsteps hnd
    rw [submitted_cons, List.map_append, ← List.append_assoc] at hnd
    have hs1 : ∀ np ∈ submitted [ev], np.Steps ≠ [] ∧ np.tickerOK = true := by
      intro np hnp
      exact hsteps np (by rw [submitted_cons]; exact List.mem_append_left _ hnp)
    have hs2 : ∀ np ∈ submitted evs, np.Steps ≠ [] ∧ np.tickerOK = true := by
      intro np hnp
      exact hsteps np (by rw [submitted_cons]; exact List.mem_append_right _ hnp)
    obtain ⟨hinv1, hids⟩ := step_inv e ev hinv hs1 (List.Nodup.of_append_left hnd)
    rw [List.foldl_cons]
    exact ih (e.step ev) hinv1 hs2 (by rw [hids]; exact hnd)

/-- As long as every submitted plan has at least one step and a positive
ticker period, and the identifiers are pairwise distinct, an identifier is a
key of `NIP.Stoppers` exactly when a goroutine of that plan is waiting in its
`select`; the dispatcher is never stuck and the process has not ended. -/
lemma engine_registry_invariant (evs : List EngineEvent)
    (hsteps : ∀ np ∈ submitted evs, np.Steps ≠ [] ∧ np.tickerOK = true)
    (hnd : ((submitted evs).map (fun np => np.ID)).Nodup) (id : String) :
    ((Engine.run evs).Stoppers.present id = true ↔
      ∃ g ∈ (Engine.run evs).goroutines, g.np.ID = id ∧ g.listening = true) ∧
    (Engine.run evs).blocked = false ∧ (Engine.run evs).crashed = false := by
  have hinv : EngineInv (Engine.run evs) :=
    foldl_step_inv evs StartNotificationEngine startEngine_inv hsteps
      (by simpa [StartNotificationEngine] using hnd)
  refine ⟨⟨fun hp => ?_, fun hg => ?_⟩, hinv.free, hinv.live⟩
  · cases hc : (Engine.run evs).Stoppers id with
    | none => simp [GoMap.present, hc] at hp
    | some c =>
      obtain ⟨g, hg, h1, _, h3⟩ := hinv.only id c hc
      exact ⟨g, hg, h1, h3⟩
  · obtain ⟨g, hg, h1, h2⟩ := hg
    have := hinv.reg g hg h2
    rw [h1] at this
    simp [GoMap.present, this]

/-! ## twilio.go: lemmas -/

/-- A request that fails is logged and then panics on the nil response. -/
lemma failed_request_panics (c : Config) (conv : GoMap String)
    (phoneNumber message uuid : String) (dontSendAckRequest : Bool) (k : Nat) :
    (SendSMS c conv phoneNumber message uuid dontSendAckRequest k .failed).exit = .panicked ∧
    (MakePhoneCall c phoneNumber message uuid .failed).exit = .panicked :=
  ⟨rfl, rfl⟩

/-- The unrecognized-reply branch never unlocks `NIP.Mu`. -/
lemma unrecognized_reply_holds_lock (c : Config) (nip : NIPState) (From Body : String) (k : Nat)
    (http : HTTPResult SMSResponse)
    (hb : (ReceiveSMSReply c nip From Body k http).branch = .unrecognized) :
    (ReceiveSMSReply c nip From Body k http).holdsMu = true := by
  unfold ReceiveSMSReply at hb ⊢
  by_cases hf : From = ""
  · simp [hf] at hb
  · simp only [hf, if_false] at hb ⊢
    cases hc : nip.Conversations (conversationKey From Body) with
    | none => rfl
    | some u =>
      rw [hc] at hb
      by_cases ha : nip.Stoppers.present u = false
      · simp [ha] at hb
      · simp [ha] at hb

/-- When the confirmation draws the code just acknowledged, with the provider
echoing the recipient, the key is recorded again and the same reply is
acknowledged a second time. -/
lemma confirmation_can_record_same_key :
    ackReply 23 = 123 ∧
    (ReceiveSMSReply cfg liveNIP "+15550100" "123" 23
      (.body (some (echo "+15550100")))).nip.Conversations (conversationKey "+15550100" "123")
        = some "p1" ∧
    (ReceiveSMSReply cfg
        (ReceiveSMSReply cfg liveNIP "+15550100" "123" 23 (.body (some (echo "+15550100")))).nip
        "+15550100" "123" 0 (.body (some (echo "+15550100")))).branch = .acknowledged "p1" := by
  decide

/-- What `SendSMS` and `ReceiveSMSReply` write to the conversations when the
provider's body unmarshals: the recording of lines 96-105 looks at the plan
identifier alone. -/
lemma SendSMS_records_iff_uuid (c : Config) (conv : GoMap String)
    (phoneNumber message uuid : String) (dontSendAckRequest : Bool) (k : Nat)
    (cr : SMSResponse) (nip : NIPState) (From Body : String) :
    (SendSMS c conv phoneNumber message uuid dontSendAckRequest k (.body (some cr))).Conversations
      = (if uuid = "" then conv
         else conv.set (conversationKey cr.To (toString (ackReply k))) uuid) ∧
    (SendSMS c conv phoneNumber message uuid dontSendAckRequest k (.body (some cr))).exit
      = .returned ∧
    (ReceiveSMSReply c nip From Body k (.body (some cr))).nip.Conversations
      = (match (ReceiveSMSReply c nip From Body k (.body (some cr))).branch with
         | .acknowledged u =>
           if u = "" then nip.Conversations.delete (conversationKey From Body)
           else (nip.Conversations.delete (conversationKey From Body)).set
             (conversationKey cr.To (toString (ackReply k))) u
         | _ => nip.Conversations) := by
  have hs : ∀ (cv : GoMap String) (p m u : String) (d : Bool),
      (SendSMS c cv p m u d k (.body (some cr))).Conversations
        = (if u = "" then cv else cv.set (conversationKey cr.To (toString (ackReply k))) u) := by
    intro cv p m u d
    by_cases hu : u = "" <;> simp [SendSMS, hu]
  refine ⟨hs _ _ _ _ _, ?_, ?_⟩
  · by_cases hu : uuid = "" <;> simp [SendSMS, hu]
  · unfold ReceiveSMSReply
    by_cases hf : From = ""
    · simp [hf]
    · simp only [hf, if_false]
      cases hc : nip.Conversations (conversationKey From Body) with
      | none => simp only [hs]; simp
      | some u =>
        by_cases ha : nip.Stoppers.present u = false
        · simp [ha]
        · have ha1 : nip.Stoppers.present u = true := by simpa using ha
          simp [ha1, hs]

/-- A reply whose conversation is recorded for a plan that is not in
`NIP.Stoppers` is answered with 404; nothing is sent or changed, and the same
reply is answered the same way again. -/
lemma reply_for_inactive_plan_is_404 (c : Config) (nip : NIPState) (From Body u : String)
    (k : Nat) (http : HTTPResult SMSResponse) (hfrom : From ≠ "")
    (hkey : nip.Conversations (conversationKey From Body) = some u)
    (hin : nip.Stoppers.present u = false) :
    (ReceiveSMSReply c nip From Body k http).branch = .inactive u ∧
    (ReceiveSMSReply c nip From Body k http).status = 404 ∧
    (ReceiveSMSReply c nip From Body k http).stops = [] ∧
    (ReceiveSMSReply c nip From Body k http).sms = none ∧
    (ReceiveSMSReply c nip From Body k http).nip.Conversations = nip.Conversations ∧
    (ReceiveSMSReply c nip From Body k http).nip.Stoppers = nip.Stoppers ∧
    ∀ (k2 : Nat) (http2 : HTTPResult SMSResponse),
      (ReceiveSMSReply c (ReceiveSMSReply c nip From Body k http).nip From Body k2 http2).branch
        = .inactive u := by
  have hr : ∀ (k1 : Nat) (h1 : HTTPResult SMSResponse), ReceiveSMSReply c nip From Body k1 h1
      = { nip := nip, branch := .inactive u, status := 404, stops := [], sms := none,
          holdsMu := false, exit := .returned } := by
    intro k1 h1
    simp [ReceiveSMSReply, hfrom, hkey, hin]
  rw [hr]
  refine ⟨rfl, rfl, rfl, rfl, rfl, rfl, fun k2 http2 => ?_⟩
  rw [hr]

/-! ## The claims -/

/-- C1, as stated, fails: on the two-step plan `planAB`, run through the
expiry of the first step's timer and two ticks without a cancellation,
`planHandler` makes no contact dispatch at all, where the claim counts one on
entering the first step, one on the expiry and one per tick. -/
theorem planHandler_planAB_dispatches_nothing :
    (dispatches (run planAB (planHandler planAB) GoMap.empty
        [Event.timer, Event.ticker, Event.ticker]).1.out).length = 0 ∧
      ¬ (dispatches (run planAB (planHandler planAB) GoMap.empty
        [Event.timer, Event.ticker, Event.ticker]).1.out).length = 1 + 1 + 2 := by
  decide

/-- C1, amended: for every plan with steps [A, B] that is never cancelled,
`planHandler` makes no contact dispatch; it enters step A at once and only
step A until A's timer expires; when B's notify-every period is positive, it
enters step B on that expiry and from then on logs one retry per tick, staying
in step B. -/
theorem planHandler_two_steps_schedule (id : String) (A B : Step) (reg : GoMap Chan)
    (evs : List Event) (hns : Event.stop ∉ evs) :
    dispatches (run ⟨id, [A, B]⟩ (planHandler ⟨id, [A, B]⟩) reg evs).1.out = [] ∧
    (Event.timer ∉ evs →
      (run ⟨id, [A, B]⟩ (planHandler ⟨id, [A, B]⟩) reg evs).1.pc = .select 0 A ∧
      entered (run ⟨id, [A, B]⟩ (planHandler ⟨id, [A, B]⟩) reg evs).1.out = [0] ∧
      retries (run ⟨id, [A, B]⟩ (planHandler ⟨id, [A, B]⟩) reg evs).1.out = 0) ∧
    (Event.timer ∈ evs → 0 < B.NotifyEveryPeriod →
      (run ⟨id, [A, B]⟩ (planHandler ⟨id, [A, B]⟩) reg evs).1.pc = .select 1 B ∧
      entered (run ⟨id, [A, B]⟩ (planHandler ⟨id, [A, B]⟩) reg evs).1.out = [0, 1] ∧
      retries (run ⟨id, [A, B]⟩ (planHandler ⟨id, [A, B]⟩) reg evs).1.out
        = (evs.dropWhile (fun e => decide (e ≠ Event.timer))).count .ticker) := by
  have w0 : Waiting ⟨id, [A, B]⟩ (planHandler ⟨id, [A, B]⟩) 0 :=
    planHandler_waiting _ (by simp) (fun h1 => by simp at h1)
  obtain ⟨p1, p2⟩ := run_penultimate_retries ⟨id, [A, B]⟩ reg 0 evs _ w0 rfl hns
  refine ⟨by rw [run_quiet, planHandler_quiet], fun hc => ?_, fun hc hB => ?_⟩
  · rw [p1 hc]
    obtain ⟨s, hs, hpc⟩ := w0.pc
    refine ⟨?_, ?_, planHandler_retries _⟩
    · simp at hs; rw [hpc, hs]
    · simpa using w0.order
  · have hok : (⟨id, [A, B]⟩ : NotificationPlan).tickerOK = true := by
      simp [NotificationPlan.tickerOK, hB]
    obtain ⟨w, _⟩ := run_waiting ⟨id, [A, B]⟩ reg evs hok _ 0 w0 hns
    have hcnt : 1 ≤ evs.count Event.timer := List.count_pos_iff.2 hc
    have hm : min (0 + evs.count Event.timer) ((⟨id, [A, B]⟩ : NotificationPlan).Steps.length - 1)
        = 1 := by
      simp only [List.length_cons, List.length_nil]
      omega
    rw [hm] at w
    obtain ⟨s, hs, hpc⟩ := w.pc
    refine ⟨?_, ?_, ?_⟩
    · simp at hs; rw [hpc, hs]
    · simpa [List.range_succ] using w.order
    · rw [p2 hc hok, planHandler_retries]; simp

/-- A witness of `planHandler_two_steps_schedule`: the plan `planAB` with one
expiry and two ticks. -/
theorem planHandler_two_steps_schedule_witness :
    Event.stop ∉ [Event.timer, Event.ticker, Event.ticker] ∧
    dispatches (run ⟨"p1", [stepA, stepB]⟩ (planHandler ⟨"p1", [stepA, stepB]⟩) GoMap.empty
      [Event.timer, Event.ticker, Event.ticker]).1.out = [] :=
  ⟨by decide,
   (planHandler_two_steps_schedule "p1" stepA stepB GoMap.empty
      [Event.timer, Event.ticker, Event.ticker] (by decide)).1⟩

/-- C2, as stated, fails: the one-step plan `planA`, whose step has no
repeat interval, dies in the panic of `time.NewTicker` on entering its only
step, and the two-step plan `planBA` does so when its first timer expires;
neither is waiting in a step afterwards, without any cancellation. -/
theorem planHandler_zero_period_panics :
    1 ≤ planA.Steps.length ∧ Event.stop ∉ ([] : List Event) ∧
    (run planA (planHandler planA) GoMap.empty []).1.pc = .panicked ∧
    ¬ (run planA (planHandler planA) GoMap.empty []).1.step?
        = some (min (([] : List Event).count .timer) (planA.Steps.length - 1)) ∧
    (run planBA (planHandler planBA) GoMap.empty [Event.timer]).1.pc = .panicked ∧
    ¬ (run planBA (planHandler planBA) GoMap.empty [Event.timer]).1.step?
        = some (min ([Event.timer].count .timer) (planBA.Steps.length - 1)) := by
  decide

/-- C2, amended: for every plan with at least one step whose last step has a
positive notify-every period, and every sequence of timer and ticker events
without a cancellation, `planHandler` is waiting in the step numbered by the
timer expiries so far, capped at the last index; it entered the steps 0, 1,
... up to that one in plan order; before the last step the timer's expiry
moves it to the next step and a tick changes nothing; in the last step a tick
leaves it in the last step and the timer delivers nothing; so it never passes
the last step and never returns. -/
theorem planHandler_steps_in_order (np : NotificationPlan) (reg : GoMap Chan)
    (evs : List Event) (hk : 1 ≤ np.Steps.length) (hok : np.tickerOK = true)
    (hns : Event.stop ∉ evs) :
    (run np (planHandler np) reg evs).1.step?
      = some (min (evs.count .timer) (np.Steps.length - 1)) ∧
    (run np (planHandler np) reg evs).2 = reg ∧
    entered (run np (planHandler np) reg evs).1.out
      = List.range (min (evs.count .timer) (np.Steps.length - 1) + 1) ∧
    (min (evs.count .timer) (np.Steps.length - 1) + 1 < np.Steps.length →
      (select np (run np (planHandler np) reg evs).1 reg .timer).1.step?
        = some (min (evs.count .timer) (np.Steps.length - 1) + 1) ∧
      select np (run np (planHandler np) reg evs).1 reg .ticker
        = ((run np (planHandler np) reg evs).1, reg)) ∧
    (min (evs.count .timer) (np.Steps.length - 1) + 1 = np.Steps.length →
      (select np (run np (planHandler np) reg evs).1 reg .ticker).1.step?
        = some (min (evs.count .timer) (np.Steps.length - 1)) ∧
      select np (run np (planHandler np) reg evs).1 reg .timer
        = ((run np (planHandler np) reg evs).1, reg)) := by
  obtain ⟨w, hreg⟩ :=
    run_waiting np reg evs hok _ 0 (planHandler_waiting np hk (fun _ => hok)) hns
  rw [Nat.zero_add] at w
  refine ⟨w.step?, hreg, w.order, fun hlt => ?_, fun heq => ?_⟩
  · exact ⟨(select_timer_advance np _ reg _ w hlt hok).1.step?,
      select_ticker_early np _ reg _ w hlt⟩
  · exact ⟨(select_ticker_last np _ reg _ w heq).1.step?, select_timer_last np _ reg _ w heq⟩

/-- A witness of `planHandler_steps_in_order`: `planAB` after one expiry and a
tick is waiting in step 1. -/
theorem planHandler_steps_in_order_witness :
    1 ≤ planAB.Steps.length ∧ planAB.tickerOK = true ∧
    Event.stop ∉ [Event.timer, Event.ticker] ∧
    (run planAB (planHandler planAB) GoMap.empty [Event.timer, Event.ticker]).1.step?
      = some (min ([Event.timer, Event.ticker].count .timer) (planAB.Steps.length - 1)) :=
  ⟨by decide, by decide, by decide,
   (planHandler_steps_in_order planAB GoMap.empty [Event.timer, Event.ticker]
      (by decide) (by decide) (by decide)).1⟩

/-- C3: for every plan and every step index `n`, a `planHandler` waiting in
step `n` that receives the cancellation signal returns; it has entered no
further step and reacts to no later event; the registry afterwards is the
registry before with the plan's own identifier deleted, every other entry as
it was. -/
theorem planHandler_stop_unregisters (np : NotificationPlan) (h : Handler) (reg : GoMap Chan)
    (n : Nat) (hw : h.step? = some n) :
    (select np h reg .stop).1.pc = .stopped ∧
    entered (select np h reg .stop).1.out = entered h.out ∧
    dispatches (select np h reg .stop).1.out = dispatches h.out ∧
    (∀ evs : List Event,
      run np (select np h reg .stop).1 (select np h reg .stop).2 evs = select np h reg .stop) ∧
    (select np h reg .stop).2 = reg.delete np.ID ∧
    (select np h reg .stop).2 np.ID = none ∧
    (∀ id : String, id ≠ np.ID → (select np h reg .stop).2 id = reg id) := by
  have hpc : ∃ s, h.pc = .select n s := by
    unfold Handler.step? at hw
    split at hw
    · rename_i m s hm
      simp only [Option.some.injEq] at hw
      exact ⟨s, by rw [hm, hw]⟩
    · cases hw
    · cases hw
    · cases hw
  obtain ⟨s, hs⟩ := hpc
  have hsel : select np h reg .stop
      = ({ h with pc := .stopped, out := h.out ++ [.log .manualStop] }, reg.delete np.ID) := by
    simp [select, hs]
  rw [hsel]
  refine ⟨rfl, ?_, ?_, fun evs => ?_, rfl, ?_, fun id hid => ?_⟩
  · simp [entered_append, entered]
  · simp [dispatches_append, dispatches, Effect.isDispatch]
  · induction evs with
    | nil => rfl
    | cons e evs ih => rw [run_cons]; simpa [select] using ih
  · simp [GoMap.delete]
  · simp [GoMap.delete, hid]

/-- A witness of `planHandler_stop_unregisters`: `planAB` cancelled while it
waits in step 0. -/
theorem planHandler_stop_unregisters_witness :
    (planHandler planAB).step? = some 0 ∧
    (select planAB (planHandler planAB) (GoMap.empty.set "p1" 0) .stop).1.pc = .stopped :=
  ⟨by decide,
   (planHandler_stop_unregisters planAB (planHandler planAB) (GoMap.empty.set "p1" 0) 0
      (by decide)).1⟩

/-- C4: for every engine state and every identifier that is not a key of
`NIP.Stoppers`, the dispatcher's handling of a stop request for it changes
nothing: no signal is sent on any channel, the dispatcher is not left stuck,
no goroutine changes, and `NIP.Stoppers` is as before. -/
theorem stop_request_unregistered_is_noop (e : Engine) (id : String)
    (hid : e.Stoppers.present id = false) :
    e.stop id = e ∧ e.step (.stopUUID id) = e ∧
    (e.step (.stopUUID id)).sent = e.sent ∧
    (e.step (.stopUUID id)).blocked = e.blocked ∧
    (e.step (.stopUUID id)).Stoppers = e.Stoppers := by
  have hnone : e.Stoppers id = none := by
    simpa [GoMap.present] using hid
  have h1 : e.stop id = e := by simp [Engine.stop, hnone]
  have h2 : e.step (.stopUUID id) = e := by
    simp only [Engine.step]
    split
    · rfl
    · simp only [Engine.serve]
      split
      · rfl
      · exact h1
  exact ⟨h1, h2, by rw [h2], by rw [h2], by rw [h2]⟩

/-- A witness of `stop_request_unregistered_is_noop`: a stop request for "p2"
while only "p1" is in progress. -/
theorem stop_request_unregistered_is_noop_witness :
    (Engine.run [.plan planAB]).Stoppers.present "p2" = false ∧
    ((Engine.run [.plan planAB]).step (.stopUUID "p2")).sent = (Engine.run [.plan planAB]).sent :=
  ⟨by decide,
   (stop_request_unregistered_is_noop (Engine.run [.plan planAB]) "p2" (by decide)).2.2.1⟩

/-- C5, as stated, fails: with the conversation key present but its plan not
in `NIP.Stoppers`, `ReceiveSMSReply` answers 404 and keeps the entry, and the
same reply handled again does not take the unrecognized-reply branch. -/
theorem reply_for_inactive_plan_keeps_entry :
    staleNIP.Conversations (conversationKey "+15550100" "123") = some "p1" ∧
    (ReceiveSMSReply cfg staleNIP "+15550100" "123" 0
      (.body (some (echo "+15550100")))).branch = .inactive "p1" ∧
    (ReceiveSMSReply cfg staleNIP "+15550100" "123" 0
      (.body (some (echo "+15550100")))).status = 404 ∧
    (ReceiveSMSReply cfg staleNIP "+15550100" "123" 0
      (.body (some (echo "+15550100")))).nip.Conversations (conversationKey "+15550100" "123")
        = some "p1" ∧
    ¬ (ReceiveSMSReply cfg
        (ReceiveSMSReply cfg staleNIP "+15550100" "123" 0 (.body (some (echo "+15550100")))).nip
        "+15550100" "123" 1 (.body (some (echo "+15550100")))).branch = .unrecognized := by
  decide

/-- C5, amended: when the conversation key is present, the recipient is not
empty and the stored plan identifier is a key of `NIP.Stoppers`,
`ReceiveSMSReply` resolves the reply to the stored identifier, sends a stop
request for it and deletes the entry before it sends the confirmation; when
that confirmation returns without recording the same key again, the same
reply handled a second time takes the unrecognized-reply branch. -/
theorem reply_resolves_once (c : Config) (nip : NIPState) (From Body u : String) (k : Nat)
    (http : HTTPResult SMSResponse) (hfrom : From ≠ "")
    (hkey : nip.Conversations (conversationKey From Body) = some u)
    (hact : nip.Stoppers.present u = true) :
    (ReceiveSMSReply c nip From Body k http).branch = .acknowledged u ∧
    (ReceiveSMSReply c nip From Body k http).stops = [u] ∧
    (nip.Conversations.delete (conversationKey From Body)) (conversationKey From Body) = none ∧
    (ReceiveSMSReply c nip From Body k http).nip.Conversations
      = (SendSMS c (nip.Conversations.delete (conversationKey From Body)) From ackMessage u true
          k http).Conversations ∧
    (∀ cr : SMSResponse, http = .body (some cr) →
      (u = "" ∨ conversationKey cr.To (toString (ackReply k)) ≠ conversationKey From Body) →
      (ReceiveSMSReply c nip From Body k http).exit = .returned ∧
      (ReceiveSMSReply c nip From Body k http).nip.Conversations (conversationKey From Body)
        = none ∧
      ∀ (reg : GoMap Chan) (k2 : Nat) (http2 : HTTPResult SMSResponse),
        (ReceiveSMSReply c
          { Stoppers := reg,
            Conversations := (ReceiveSMSReply c nip From Body k http).nip.Conversations }
          From Body k2 http2).branch = .unrecognized) := by
  have hr : ReceiveSMSReply c nip From Body k http
      = { nip := { nip with Conversations :=
            (SendSMS c (nip.Conversations.delete (conversationKey From Body)) From ackMessage u
              true k http).Conversations },
          branch := .acknowledged u, status := 200, stops := [u],
          sms := some (SendSMS c (nip.Conversations.delete (conversationKey From Body)) From
            ackMessage u true k http).request,
          holdsMu := false,
          exit := (SendSMS c (nip.Conversations.delete (conversationKey From Body)) From
            ackMessage u true k http).exit } := by
    simp [ReceiveSMSReply, hfrom, hkey, hact]
  rw [hr]
  refine ⟨rfl, rfl, by simp [GoMap.delete], rfl, ?_⟩
  intro cr hcr hfresh
  subst hcr
  have hnone : (SendSMS c (nip.Conversations.delete (conversationKey From Body)) From ackMessage
      u true k (.body (some cr))).Conversations (conversationKey From Body) = none := by
    by_cases hu : u = ""
    · simp [SendSMS, hu, GoMap.delete]
    · have hne : conversationKey From Body ≠ conversationKey cr.To (toString (ackReply k)) := by
        rcases hfresh with h1 | h1
        · exact absurd h1 hu
        · exact fun h2 => h1 h2.symm
      simp [SendSMS, hu, GoMap.set, GoMap.delete, hne]
  refine ⟨?_, hnone, fun reg k2 http2 => ?_⟩
  · by_cases hu : u = "" <;> simp [SendSMS, hu]
  · simp only [ReceiveSMSReply, hfrom, if_false]
    rw [hnone]

/-- A witness of `reply_resolves_once`: the plan "p1" in progress, its code
"123" sent back, and a confirmation that draws another code. -/
theorem reply_resolves_once_witness :
    ("+15550100" : String) ≠ "" ∧
    liveNIP.Conversations (conversationKey "+15550100" "123") = some "p1" ∧
    liveNIP.Stoppers.present "p1" = true ∧
    (ReceiveSMSReply cfg liveNIP "+15550100" "123" 0
      (.body (some (echo "+15550100")))).branch = .acknowledged "p1" :=
  ⟨by decide, by decide, by decide,
   (reply_resolves_once cfg liveNIP "+15550100" "123" "p1" 0 (.body (some (echo "+15550100")))
      (by decide) (by decide) (by decide)).1⟩

/-- C6, at the failing input: after the dispatcher accepted a plan without
steps, the plan's identifier is a key of `NIP.Stoppers` although its
`planHandler` has returned without seeing any cancellation; a stop request for
it then leaves the dispatcher stuck in its send. -/
theorem empty_plan_stays_registered :
    (Engine.run [.plan planEmpty]).Stoppers.present "p0" = true ∧
    (Engine.run [.plan planEmpty]).goroutines.map (fun g => (g.np.ID, g.h.pc))
      = [("p0", PC.finished)] ∧
    (Engine.run [.plan planEmpty]).goroutines.map Goroutine.listening = [false] ∧
    (Engine.run [.plan planEmpty, .stopUUID "p0"]).blocked = true ∧
    (Engine.run [.plan planEmpty, .stopUUID "p0"]).Stoppers.present "p0" = true := by
  decide

/-- C7, as stated, fails: on a provider body that does not unmarshal, `SendSMS`
and `MakePhoneCall` do not return to their caller; `log.Fatalln` ends the
process. -/
theorem malformed_body_does_not_return :
    ¬ (SendSMS cfg GoMap.empty "+15550100" "fire" "p1" false 0 (.body none)).exit = .returned ∧
    (SendSMS cfg GoMap.empty "+15550100" "fire" "p1" false 0 (.body none)).exit = .fatal ∧
    ¬ (MakePhoneCall cfg "+15550100" "fire" "p1" (.body none)).exit = .returned ∧
    (MakePhoneCall cfg "+15550100" "fire" "p1" (.body none)).exit = .fatal := by
  decide

/-- C7, amended: for every provider body that does not unmarshal into the
expected type, `SendSMS` and `MakePhoneCall` log the failure with
`log.Fatalln`, which ends the process, and record nothing; on every body that
does unmarshal they return to their caller. -/
theorem malformed_body_is_fatal (c : Config) (conv : GoMap String)
    (phoneNumber message uuid : String) (dontSendAckRequest : Bool) (k : Nat)
    (cr : SMSResponse) :
    (SendSMS c conv phoneNumber message uuid dontSendAckRequest k (.body none)).exit = .fatal ∧
    TwilioLog.fatalUnmarshal
      ∈ (SendSMS c conv phoneNumber message uuid dontSendAckRequest k (.body none)).logs ∧
    (SendSMS c conv phoneNumber message uuid dontSendAckRequest k (.body none)).Conversations
      = conv ∧
    (MakePhoneCall c phoneNumber message uuid (.body none)).exit = .fatal ∧
    TwilioLog.fatalUnmarshal ∈ (MakePhoneCall c phoneNumber message uuid (.body none)).logs ∧
    (SendSMS c conv phoneNumber message uuid dontSendAckRequest k (.body (some cr))).exit
      = .returned ∧
    (MakePhoneCall c phoneNumber message uuid (.body (some ()))).exit = .returned := by
  refine ⟨rfl, by simp [SendSMS], rfl, rfl, by simp [MakePhoneCall], ?_, rfl⟩
  by_cases hu : uuid = "" <;> simp [SendSMS, hu]

/-- C8, at the failing input: the confirmation `ReceiveSMSReply` sends after
an acknowledgment carries the plan identifier and no acknowledgment request;
its body is the bare message, the code goes to nobody, and `SendSMS` records a
conversation entry under that code all the same, where the claim has
`NIP.Conversations` unchanged. -/
theorem confirmation_records_conversation :
    (smsBody ackMessage (ackReply 0) true = ackMessage) ∧
    (GoMap.empty : GoMap String) (conversationKey "+15550100" (toString (ackReply 0))) = none ∧
    (SendSMS cfg GoMap.empty "+15550100" ackMessage "p1" true 0
      (.body (some (echo "+15550100")))).Conversations
        (conversationKey "+15550100" (toString (ackReply 0))) = some "p1" ∧
    ¬ (SendSMS cfg GoMap.empty "+15550100" ackMessage "p1" true 0
      (.body (some (echo "+15550100")))).Conversations
        (conversationKey "+15550100" (toString (ackReply 0))) = none ∧
    (ReceiveSMSReply cfg liveNIP "+15550100" "123" 0
      (.body (some (echo "+15550100")))).nip.Conversations
        (conversationKey "+15550100" (toString (ackReply 0))) = some "p1" := by
  decide

/-- C9: for every non-empty recipient number `r`, every drawn value `k` with
code `n = k + 100` and every plan identifier `u` in `NIP.Stoppers`: after
`SendSMS` embedded `n` between the quotes of the outgoing body and, the
provider echoing `To = r`, recorded the conversation, `ReceiveSMSReply` on a
reply with `From = r` and `Body` the decimal text of `n` computes the same
key, finds `u` under it, and sends a stop request for `u` and nothing else. -/
theorem ack_code_round_trip (c : Config) (nip : NIPState) (phoneNumber message r u : String)
    (k : Nat) (cr : SMSResponse) (k2 : Nat) (http2 : HTTPResult SMSResponse)
    (hr : r ≠ "") (hu : u ≠ "") (hact : nip.Stoppers.present u = true) (hecho : cr.To = r) :
    (SendSMS c nip.Conversations phoneNumber message u false k (.body (some cr))).request.Body
      = message ++ " - Reply with \"" ++ toString (ackReply k) ++ "\" to acknowledge" ∧
    (SendSMS c nip.Conversations phoneNumber message u false k (.body (some cr))).Conversations
      = nip.Conversations.set (conversationKey r (toString (ackReply k))) u ∧
    (SendSMS c nip.Conversations phoneNumber message u false k (.body (some cr))).Conversations
      (conversationKey r (toString (ackReply k))) = some u ∧
    (ReceiveSMSReply c
      { nip with Conversations :=
          (SendSMS c nip.Conversations phoneNumber message u false k
            (.body (some cr))).Conversations }
      r (toString (ackReply k)) k2 http2).branch = .acknowledged u ∧
    (ReceiveSMSReply c
      { nip with Conversations :=
          (SendSMS c nip.Conversations phoneNumber message u false k
            (.body (some cr))).Conversations }
      r (toString (ackReply k)) k2 http2).stops = [u] := by
  have hs : (SendSMS c nip.Conversations phoneNumber message u false k
      (.body (some cr))).Conversations
        = nip.Conversations.set (conversationKey r (toString (ackReply k))) u := by
    simp [SendSMS, hu, hecho]
  have hl : (nip.Conversations.set (conversationKey r (toString (ackReply k))) u)
      (conversationKey r (toString (ackReply k))) = some u := by
    simp [GoMap.set]
  refine ⟨by simp [SendSMS, smsBody, hu], hs, by rw [hs, hl], ?_, ?_⟩
  · rw [hs]; simp [ReceiveSMSReply, hr, hl, hact]
  · rw [hs]; simp [ReceiveSMSReply, hr, hl, hact]

/-- A witness of `ack_code_round_trip`: plan "p1" in progress, the value 23
drawn, the reply "123" from the recipient. -/
theorem ack_code_round_trip_witness :
    ("+15550100" : String) ≠ "" ∧ ("p1" : String) ≠ "" ∧
    liveNIP.Stoppers.present "p1" = true ∧ (echo "+15550100").To = "+15550100" ∧
    (ReceiveSMSReply cfg
      { liveNIP with Conversations :=
          (SendSMS cfg liveNIP.Conversations "+15550100" "fire" "p1" false 23
            (.body (some (echo "+15550100")))).Conversations }
      "+15550100" (toString (ackReply 23)) 0 (.body (some (echo "+15550100")))).stops = ["p1"] :=
  ⟨by decide, by decide, by decide, rfl,
   (ack_code_round_trip cfg liveNIP "+15550100" "fire" "+15550100" "p1" 23 (echo "+15550100") 0
      (.body (some (echo "+15550100"))) (by decide) (by decide) (by decide) rfl).2.2.2.2⟩

/-- C10, at the failing input: the codes `rand.Intn(899) + 100` are exactly
the integers from 100 to 998; the code 999, which the comment in `SendSMS`
and the claim include, is drawn for no value of `rand.Intn(899)`. -/
theorem ackReply_never_999 :
    (∀ n : Nat, (∃ k, k < 899 ∧ ackReply k = n) ↔ (100 ≤ n ∧ n ≤ 998)) ∧
    ¬ ∃ k, k < 899 ∧ ackReply k = 999 := by
  constructor
  · intro n
    constructor
    · rintro ⟨k, hk, rfl⟩
      unfold ackReply
      omega
    · rintro ⟨h1, h2⟩
      exact ⟨n - 100, by omega, by unfold ackReply; omega⟩
  · rintro ⟨k, hk, h⟩
    unfold ackReply at h
    omega

end ChickenLittle
